import Mathlib

/-!
Verification of the availability/window computation module of the
bluewater-scheduler repository.

Calendar days are modelled as integers: a valid ISO date string stands for
its day number, string comparison of ISO dates agrees with integer
comparison, and addDays is integer addition.  Durations are integers as in
the source (JavaScript numbers used as loop bounds).

Two range representations appear in the source:
* `ApiReservation` (src/src/SchedulerApp.tsx): `startDate` inclusive and
  `endExclusive` exclusive, both always present.
* `BookingRange` (src/unnamed/part_001): `start` inclusive and an optional
  exclusive `end`; a missing `end` denotes a single occupied day.
-/

/-- Reservation record of src/src/SchedulerApp.tsx: start date inclusive,
end date exclusive, both present (days as integers). -/
structure ApiReservation where
  startDate : ℤ
  endExclusive : ℤ
  deriving DecidableEq, Repr

/-- Booking range of src/unnamed/part_001: start date inclusive, optional
exclusive end date; a missing end denotes the single day `start`. -/
structure BookingRange where
  start : ℤ
  endDate : Option ℤ
  deriving DecidableEq, Repr

/-- isBookedForDate of src/src/SchedulerApp.tsx (lines 69-71):
`rs.some (r => dateIso >= r.startDate && dateIso < r.endExclusive)`. -/
def isBookedForDate (reservationsForBoat : List ApiReservation) (dateIso : ℤ) : Bool :=
  reservationsForBoat.any fun r =>
    decide (r.startDate ≤ dateIso) && decide (dateIso < r.endExclusive)

/-- isBooked of src/unnamed/part_001 (lines 103-112), taken over the
boat's range list (the source first looks the list up by boat id):
if the end is missing the day is booked iff it equals the start, else
iff it lies in the half-open interval. -/
def isBooked (ranges : List BookingRange) (d : ℤ) : Bool :=
  ranges.any fun r =>
    match r.endDate with
    | none => decide (d = r.start)
    | some e => decide (r.start ≤ d) && decide (d < e)

/-- Loop body of windowFits (src/src/SchedulerApp.tsx lines 83-88):
iterate the remaining `fuel` offsets starting at offset `k`; return false
as soon as the day `startDay + k` leaves `[scheduleStart, scheduleEnd]`
or is booked. -/
def windowFitsGo (rs : List ApiReservation) (startDay scheduleStart scheduleEnd : ℤ) :
    ℕ → ℕ → Bool
  | _, 0 => true
  | k, fuel + 1 =>
    let dd := startDay + (k : ℤ)
    if dd < scheduleStart ∨ scheduleEnd < dd then false
    else if isBookedForDate rs dd then false
    else windowFitsGo rs startDay scheduleStart scheduleEnd (k + 1) fuel

/-- windowFits of src/src/SchedulerApp.tsx (lines 73-89): a duration of at
most one day checks only whether the start day is booked; otherwise every
offset in `[0, durationDays)` must stay inside the schedule window and be
unbooked. -/
def windowFits (rs : List ApiReservation) (startDay durationDays scheduleStart scheduleEnd : ℤ) :
    Bool :=
  if durationDays ≤ 1 then !isBookedForDate rs startDay
  else windowFitsGo rs startDay scheduleStart scheduleEnd 0 durationDays.toNat

/-- Loop of maxDurationFrom (src/src/SchedulerApp.tsx lines 100-106):
count the days walked, starting at offset `k` with `fuel` iterations left,
stopping without counting at the first day outside the window or booked. -/
def maxDurationGo (rs : List ApiReservation) (startDay scheduleStart scheduleEnd : ℤ) :
    ℕ → ℕ → ℕ
  | _, 0 => 0
  | k, fuel + 1 =>
    let d := startDay + (k : ℤ)
    if d < scheduleStart ∨ scheduleEnd < d then 0
    else if isBookedForDate rs d then 0
    else maxDurationGo rs startDay scheduleStart scheduleEnd (k + 1) fuel + 1

/-- maxDurationFrom of src/src/SchedulerApp.tsx (lines 91-109):
clamp the desired duration to `[1, 30]`, walk that many offsets counting
the in-window unbooked prefix, and floor the count at 1. -/
def maxDurationFrom (rs : List ApiReservation)
    (startDay desiredDays scheduleStart scheduleEnd : ℤ) : ℤ :=
  let m := max 1 (min desiredDays 30)
  let actual : ℕ := maxDurationGo rs startDay scheduleStart scheduleEnd 0 m.toNat
  max 1 (actual : ℤ)

/-- Inner loop of hasAnyAvailableWindow (src/src/SchedulerApp.tsx lines
117-127): with `fuel` offsets of the candidate block left and the next
absolute offset `offset + k`, fail when the offset leaves the fixed
14-day window or hits a booked day. -/
def hasWindowInner (rs : List ApiReservation) (scheduleStart : ℤ) (offset : ℕ) :
    ℕ → ℕ → Bool
  | _, 0 => true
  | k, fuel + 1 =>
    if 14 ≤ offset + k then false
    else if isBookedForDate rs (scheduleStart + ((offset + k : ℕ) : ℤ)) then false
    else hasWindowInner rs scheduleStart offset (k + 1) fuel

/-- hasAnyAvailableWindow of src/src/SchedulerApp.tsx (lines 111-133):
durations of at most one day always pass; otherwise some start offset in
`[0, 14)` must admit a block of `durationDays` days inside the 14-day
window with no booked day. -/
def hasAnyAvailableWindow (rs : List ApiReservation) (scheduleStart durationDays : ℤ) : Bool :=
  if durationDays ≤ 1 then true
  else (List.range 14).any fun offset =>
    hasWindowInner rs scheduleStart offset 0 durationDays.toNat

/-- Day check shared by windowFits and maxDurationFrom: the day is inside
the schedule window and unbooked. -/
def dayOk (rs : List ApiReservation) (scheduleStart scheduleEnd : ℤ) (d : ℤ) : Bool :=
  !(decide (d < scheduleStart) || decide (scheduleEnd < d)) && !isBookedForDate rs d

/-- Statement-side rendering of claim C1: the result is the floor at 1 of
the length of the longest prefix of offsets `0, 1, ...` below the clamped
desired duration whose days all pass the window-and-unbooked check. -/
def maxDurationFromSpec (rs : List ApiReservation)
    (startDay desiredDays scheduleStart scheduleEnd : ℤ) : ℤ :=
  let clamped := (max 1 (min desiredDays 30)).toNat
  let c := ((List.range clamped).takeWhile fun k : ℕ =>
    dayOk rs scheduleStart scheduleEnd (startDay + (k : ℤ))).length
  max 1 (c : ℤ)

/-! Helper lemmas characterizing the loops. -/

lemma dayOk_eq_true_iff (rs : List ApiReservation) (lo hi d : ℤ) :
    dayOk rs lo hi d = true ↔ lo ≤ d ∧ d ≤ hi ∧ isBookedForDate rs d = false := by
  simp [dayOk, not_lt, and_assoc]

lemma windowFitsGo_succ (rs : List ApiReservation) (s lo hi : ℤ) (k n : ℕ) :
    windowFitsGo rs s lo hi k (n + 1) =
      (dayOk rs lo hi (s + (k : ℤ)) && windowFitsGo rs s lo hi (k + 1) n) := by
  simp only [windowFitsGo, dayOk]
  by_cases h1 : s + (k : ℤ) < lo ∨ hi < s + (k : ℤ)
  · simp [h1]
    intro ha hb _
    exact absurd h1 (by omega)
  · push_neg at h1
    have hna : ¬ s + (k : ℤ) < lo := not_lt.mpr h1.1
    have hnb : ¬ hi < s + (k : ℤ) := not_lt.mpr h1.2
    by_cases h2 : isBookedForDate rs (s + (k : ℤ)) = true
    · simp [hna, hnb, h2]
    · rw [Bool.not_eq_true] at h2
      simp [hna, hnb, h2]

lemma windowFitsGo_eq_true (rs : List ApiReservation) (s lo hi : ℤ) (fuel k : ℕ) :
    windowFitsGo rs s lo hi k fuel = true ↔
      ∀ j : ℕ, j < fuel → dayOk rs lo hi (s + ((k + j : ℕ) : ℤ)) = true := by
  induction fuel generalizing k with
  | zero => simp [windowFitsGo]
  | succ n ih =>
    rw [windowFitsGo_succ, Bool.and_eq_true, ih (k + 1)]
    constructor
    · rintro ⟨h0, hrest⟩ j hj
      match j with
      | 0 => simpa using h0
      | j + 1 =>
        have e : k + (j + 1) = k + 1 + j := by omega
        rw [e]
        exact hrest j (by omega)
    · intro h
      refine ⟨by simpa using h 0 (by omega), fun j hj => ?_⟩
      have e : k + 1 + j = k + (j + 1) := by omega
      rw [e]
      exact h (j + 1) (by omega)

lemma maxDurationGo_succ (rs : List ApiReservation) (s lo hi : ℤ) (k n : ℕ) :
    maxDurationGo rs s lo hi k (n + 1) =
      if dayOk rs lo hi (s + (k : ℤ)) = true then
        maxDurationGo rs s lo hi (k + 1) n + 1
      else 0 := by
  simp only [maxDurationGo, dayOk]
  by_cases h1 : s + (k : ℤ) < lo ∨ hi < s + (k : ℤ)
  · simp [h1]
    have hc : ¬((lo ≤ s + (k : ℤ) ∧ s + (k : ℤ) ≤ hi) ∧
        isBookedForDate rs (s + (k : ℤ)) = false) := by
      rintro ⟨⟨ha, hb⟩, -⟩
      exact absurd h1 (by omega)
    rw [if_neg hc]
  · push_neg at h1
    have hna : ¬ s + (k : ℤ) < lo := not_lt.mpr h1.1
    have hnb : ¬ hi < s + (k : ℤ) := not_lt.mpr h1.2
    by_cases h2 : isBookedForDate rs (s + (k : ℤ)) = true
    · simp [hna, hnb, h2]
    · rw [Bool.not_eq_true] at h2
      simp [hna, hnb, h2]

lemma maxDurationGo_le (rs : List ApiReservation) (s lo hi : ℤ) (fuel k : ℕ) :
    maxDurationGo rs s lo hi k fuel ≤ fuel := by
  induction fuel generalizing k with
  | zero => simp [maxDurationGo]
  | succ n ih =>
    rw [maxDurationGo_succ]
    split
    · exact Nat.add_le_add_right (ih (k + 1)) 1
    · omega

lemma maxDurationGo_eq_fuel (rs : List ApiReservation) (s lo hi : ℤ) (fuel k : ℕ)
    (h : ∀ j : ℕ, j < fuel → dayOk rs lo hi (s + ((k + j : ℕ) : ℤ)) = true) :
    maxDurationGo rs s lo hi k fuel = fuel := by
  induction fuel generalizing k with
  | zero => simp [maxDurationGo]
  | succ n ih =>
    rw [maxDurationGo_succ, if_pos (by simpa using h 0 (by omega))]
    have : maxDurationGo rs s lo hi (k + 1) n = n := by
      refine ih (k + 1) fun j hj => ?_
      have e : k + 1 + j = k + (j + 1) := by omega
      rw [e]
      exact h (j + 1) (by omega)
    omega

lemma length_takeWhile_range_succ (p : ℕ → Bool) (n : ℕ) :
    ((List.range (n + 1)).takeWhile p).length =
      if p 0 = true then ((List.range n).takeWhile fun j => p (j + 1)).length + 1
      else 0 := by
  rw [List.range_succ_eq_map, List.takeWhile_cons]
  by_cases h0 : p 0 = true
  · rw [if_pos h0, if_pos h0]
    rw [List.takeWhile_map]
    have e : (p ∘ Nat.succ) = fun j => p (j + 1) := by
      funext j
      simp [Nat.succ_eq_add_one]
    rw [List.length_cons, List.length_map, e]
  · rw [if_neg h0, if_neg h0]
    simp

lemma maxDurationGo_eq_takeWhile (rs : List ApiReservation) (s lo hi : ℤ) (fuel k : ℕ) :
    maxDurationGo rs s lo hi k fuel =
      ((List.range fuel).takeWhile fun j =>
        dayOk rs lo hi (s + ((k + j : ℕ) : ℤ))).length := by
  induction fuel generalizing k with
  | zero => simp [maxDurationGo]
  | succ n ih =>
    rw [maxDurationGo_succ, length_takeWhile_range_succ]
    by_cases h0 : dayOk rs lo hi (s + ((k : ℕ) : ℤ)) = true
    · rw [if_pos h0, if_pos (by simpa using h0)]
      have e : (fun j => dayOk rs lo hi (s + ((k + (j + 1) : ℕ) : ℤ))) =
          fun j => dayOk rs lo hi (s + ((k + 1 + j : ℕ) : ℤ)) := by
        funext j
        have e₁ : k + (j + 1) = k + 1 + j := by omega
        rw [e₁]
      rw [ih (k + 1)]
      rw [e]
    · rw [if_neg h0, if_neg (by simpa using h0)]

lemma hasWindowInner_succ (rs : List ApiReservation) (lo : ℤ) (offset k n : ℕ) :
    hasWindowInner rs lo offset k (n + 1) =
      (decide (offset + k < 14) &&
        !isBookedForDate rs (lo + ((offset + k : ℕ) : ℤ)) &&
        hasWindowInner rs lo offset (k + 1) n) := by
  simp only [hasWindowInner]
  by_cases h1 : 14 ≤ offset + k
  · simp [h1, not_lt.mpr h1]
  · rw [if_neg h1]
    push_neg at h1
    by_cases h2 : isBookedForDate rs (lo + ((offset + k : ℕ) : ℤ)) = true
    · simp [h1, h2]
    · rw [Bool.not_eq_true] at h2
      simp [h1, h2]

lemma hasWindowInner_eq_true (rs : List ApiReservation) (lo : ℤ) (offset : ℕ)
    (fuel k : ℕ) :
    hasWindowInner rs lo offset k fuel = true ↔
      ∀ j : ℕ, j < fuel → offset + (k + j) < 14 ∧
        isBookedForDate rs (lo + ((offset + (k + j) : ℕ) : ℤ)) = false := by
  induction fuel generalizing k with
  | zero => simp [hasWindowInner]
  | succ n ih =>
    rw [hasWindowInner_succ, Bool.and_eq_true, Bool.and_eq_true, ih (k + 1)]
    constructor
    · rintro ⟨⟨hlt, hbk⟩, hrest⟩ j hj
      match j with
      | 0 =>
        constructor
        · have := of_decide_eq_true hlt
          omega
        · have hb : isBookedForDate rs (lo + ((offset + k : ℕ) : ℤ)) = false := by
            simpa using hbk
          simpa using hb
      | j + 1 =>
        have e : k + (j + 1) = k + 1 + j := by omega
        rw [e]
        exact hrest j (by omega)
    · intro h
      obtain ⟨h0l, h0b⟩ := h 0 (by omega)
      refine ⟨⟨by simpa using decide_eq_true (by simpa using h0l), ?_⟩, fun j hj => ?_⟩
      · simpa using h0b
      · have e : k + 1 + j = k + (j + 1) := by omega
        rw [e]
        exact h (j + 1) (by omega)

lemma isBookedForDate_append_one (rs : List ApiReservation) (r : ApiReservation) (d : ℤ) :
    isBookedForDate (rs ++ [r]) d =
      (isBookedForDate rs d || isBookedForDate [r] d) := by
  simp [isBookedForDate, List.any_append]

/-! Claim theorems. -/

/-- C1: maxDurationFrom equals the floor at 1 of the length of the longest
prefix of offsets below the clamped desired duration whose days are all
inside the schedule window and unbooked, and in particular the result is
always at least 1 — never 0 and never a failure — even when the start day
itself is booked or outside the window. -/
theorem maxDurationFrom_eq_spec_and_pos (rs : List ApiReservation) (s n lo hi : ℤ) :
    maxDurationFrom rs s n lo hi = maxDurationFromSpec rs s n lo hi ∧
      1 ≤ maxDurationFrom rs s n lo hi := by
  have hdef : maxDurationFrom rs s n lo hi =
      max 1 ((maxDurationGo rs s lo hi 0 (max 1 (min n 30)).toNat : ℕ) : ℤ) := rfl
  have hspec : maxDurationFromSpec rs s n lo hi =
      max 1 ((((List.range (max 1 (min n 30)).toNat).takeWhile fun k : ℕ =>
        dayOk rs lo hi (s + (k : ℤ))).length : ℕ) : ℤ) := rfl
  constructor
  · rw [hdef, hspec, maxDurationGo_eq_takeWhile]
    have e : (fun j => dayOk rs lo hi (s + ((0 + j : ℕ) : ℤ))) =
        fun k : ℕ => dayOk rs lo hi (s + (k : ℤ)) := by
      funext j
      rw [Nat.zero_add]
    rw [e]
  · rw [hdef]
    exact le_max_left 1 _

/-- C3: isBooked is true exactly when some range covers the day, where a
range with an end covers the half-open interval from its start to its end
and a range without an end covers exactly its start day; the empty range
list books no day. -/
theorem isBooked_eq_true_iff (R : List BookingRange) (d : ℤ) :
    (isBooked R d = true ↔ ∃ r ∈ R,
      match r.endDate with
      | some e => r.start ≤ d ∧ d < e
      | none => d = r.start) ∧
    isBooked [] d = false := by
  refine ⟨?_, rfl⟩
  rw [isBooked, List.any_eq_true]
  refine exists_congr fun r => and_congr_right fun _ => ?_
  rcases hr : r.endDate with _ | e <;> simp [hr]

/-- C5: for a positive desired duration, maxDurationFrom is bounded by the
minimum of the desired duration and 30. -/
theorem maxDurationFrom_le_min (rs : List ApiReservation) (s n lo hi : ℤ)
    (h : 1 ≤ n) :
    maxDurationFrom rs s n lo hi ≤ min n 30 := by
  have hdef : maxDurationFrom rs s n lo hi =
      max 1 ((maxDurationGo rs s lo hi 0 (max 1 (min n 30)).toNat : ℕ) : ℤ) := rfl
  rw [hdef]
  have hone : (1 : ℤ) ≤ min n 30 := le_min h (by norm_num)
  have hm : max 1 (min n 30) = min n 30 := max_eq_right hone
  have hgo := maxDurationGo_le rs s lo hi (max 1 (min n 30)).toNat 0
  have htn : (((max 1 (min n 30)).toNat : ℕ) : ℤ) = min n 30 := by
    rw [hm]
    exact Int.toNat_of_nonneg (le_trans one_pos.le hone)
  have hcast : ((maxDurationGo rs s lo hi 0 (max 1 (min n 30)).toNat : ℕ) : ℤ) ≤
      (((max 1 (min n 30)).toNat : ℕ) : ℤ) := by
    exact_mod_cast hgo
  exact max_le hone (hcast.trans (le_of_eq htn))

/-- C5 witness: the bound evaluated at a concrete positive duration. -/
theorem maxDurationFrom_le_min_witness :
    (1 : ℤ) ≤ 5 ∧ maxDurationFrom [] 0 5 0 13 ≤ min 5 30 :=
  ⟨by decide, maxDurationFrom_le_min [] 0 5 0 13 (by decide)⟩

/-- C6: a duration-1 request is exactly the negation of the booked check on
the start day; the schedule-window bounds play no role. -/
theorem windowFits_one_eq_not_isBooked (rs : List ApiReservation) (s lo hi : ℤ) :
    windowFits rs s 1 lo hi = !isBookedForDate rs s := by
  rw [windowFits, if_pos le_rfl]

/-- C8: a range whose end is present and at most its start covers no day:
alone it books nothing, and appending it to any range list changes no
answer of isBooked. -/
theorem degenerate_range_covers_nothing (r : BookingRange) (e : ℤ)
    (he : r.endDate = some e) (hle : e ≤ r.start) (R : List BookingRange) (d : ℤ) :
    isBooked [r] d = false ∧ isBooked (R ++ [r]) d = isBooked R d := by
  have h1 : isBooked [r] d = false := by
    simp [isBooked, he]
    omega
  refine ⟨h1, ?_⟩
  have h2 : isBooked (R ++ [r]) d = (isBooked R d || isBooked [r] d) := by
    simp [isBooked, List.any_append]
  rw [h2, h1, Bool.or_false]

/-- C8 witness: the degenerate range from day 5 to day 5 books nothing and
appending it leaves isBooked unchanged. -/
theorem degenerate_range_covers_nothing_witness :
    (BookingRange.mk 5 (some 5)).endDate = some 5 ∧
      (5 : ℤ) ≤ (BookingRange.mk 5 (some 5)).start ∧
      isBooked [BookingRange.mk 5 (some 5)] 5 = false ∧
      isBooked ([⟨2, some 4⟩] ++ [BookingRange.mk 5 (some 5)]) 3 = isBooked [⟨2, some 4⟩] 3 := by
  refine ⟨rfl, by decide, ?_, ?_⟩
  · exact (degenerate_range_covers_nothing ⟨5, some 5⟩ 5 rfl (by decide) [⟨2, some 4⟩] 3).1
  · exact (degenerate_range_covers_nothing ⟨5, some 5⟩ 5 rfl (by decide) [⟨2, some 4⟩] 3).2

/-- C9: a non-positive duration takes the same branch as duration 1: the
result is exactly the negation of the booked check on the start day and the
window bounds are ignored. -/
theorem windowFits_nonpos_eq_not_isBooked (rs : List ApiReservation)
    (s d lo hi : ℤ) (h : d ≤ 0) :
    windowFits rs s d lo hi = !isBookedForDate rs s := by
  rw [windowFits, if_pos (by omega)]

/-- C9 witness: duration -2 evaluated concretely. -/
theorem windowFits_nonpos_eq_not_isBooked_witness :
    (-2 : ℤ) ≤ 0 ∧ windowFits [⟨1, 2⟩] 1 (-2) 0 13 = !isBookedForDate [⟨1, 2⟩] 1 :=
  ⟨by decide, windowFits_nonpos_eq_not_isBooked [⟨1, 2⟩] 1 (-2) 0 13 (by decide)⟩

/-- C10: appending a reservation never increases availability: a booked day
stays booked, and a window that fits with the extra reservation also fits
without it. -/
theorem booking_monotone (rs : List ApiReservation) (r : ApiReservation)
    (d s dur lo hi : ℤ) :
    (isBookedForDate rs d = true → isBookedForDate (rs ++ [r]) d = true) ∧
      (windowFits (rs ++ [r]) s dur lo hi = true → windowFits rs s dur lo hi = true) := by
  have hmono : ∀ x : ℤ, isBookedForDate rs x = true →
      isBookedForDate (rs ++ [r]) x = true := by
    intro x hx
    rw [isBookedForDate_append_one, hx, Bool.true_or]
  have hmono' : ∀ x : ℤ, isBookedForDate (rs ++ [r]) x = false →
      isBookedForDate rs x = false := by
    intro x hx
    by_contra hc
    rw [Bool.not_eq_false] at hc
    rw [hmono x hc] at hx
    exact Bool.noConfusion hx
  refine ⟨hmono d, fun hw => ?_⟩
  by_cases hd : dur ≤ 1
  · rw [windowFits, if_pos hd] at hw ⊢
    have hx : isBookedForDate (rs ++ [r]) s = false := by simpa using hw
    simpa using hmono' s hx
  · rw [windowFits, if_neg hd] at hw ⊢
    rw [windowFitsGo_eq_true] at hw ⊢
    intro j hj
    have hday := hw j hj
    rw [dayOk_eq_true_iff] at hday ⊢
    exact ⟨hday.1, hday.2.1, hmono' _ hday.2.2⟩

/-- C10 witness: both directions at concrete inputs. -/
theorem booking_monotone_witness :
    isBookedForDate ([⟨0, 2⟩] ++ [⟨5, 6⟩]) 1 = true ∧
      windowFits [⟨0, 2⟩] 3 2 0 13 = true :=
  ⟨(booking_monotone [⟨0, 2⟩] ⟨5, 6⟩ 1 3 2 0 13).1 (by decide),
   (booking_monotone [⟨0, 2⟩] ⟨5, 6⟩ 1 3 2 0 13).2 (by decide)⟩

/-- C2: for a duration greater than 1, windowFits is true exactly when
every day of the block lies inside the schedule window and is unbooked. -/
theorem windowFits_gt_one_iff (rs : List ApiReservation) (s d lo hi : ℤ)
    (hd : 1 < d) :
    windowFits rs s d lo hi = true ↔
      ∀ k : ℤ, 0 ≤ k → k < d →
        lo ≤ s + k ∧ s + k ≤ hi ∧ isBookedForDate rs (s + k) = false := by
  rw [windowFits, if_neg (by omega), windowFitsGo_eq_true]
  constructor
  · intro h k hk0 hkd
    have hj : k.toNat < d.toNat := by omega
    have hday := h k.toNat hj
    rw [dayOk_eq_true_iff] at hday
    have e : ((0 + k.toNat : ℕ) : ℤ) = k := by omega
    rw [e] at hday
    exact hday
  · intro h j hj
    rw [dayOk_eq_true_iff]
    have e : ((0 + j : ℕ) : ℤ) = (j : ℤ) := by omega
    rw [e]
    exact h j (by omega) (by omega)

/-- C2 witness: the characterization applied at duration 3 with no
reservations. -/
theorem windowFits_gt_one_iff_witness :
    (1 : ℤ) < 3 ∧ windowFits [] 0 3 0 13 = true := by
  refine ⟨by decide, (windowFits_gt_one_iff [] 0 3 0 13 (by decide)).mpr ?_⟩
  intro k hk0 hkd
  exact ⟨by omega, by omega, rfl⟩

/-- C4 counterexample: the consistency claim fails for n outside [1, 30].
At n = 0 windowFits is true yet maxDurationFrom returns 1, and at n = 31
with 31 free in-window days windowFits is true yet maxDurationFrom clamps
to 30. -/
theorem windowFits_maxDuration_incompatible :
    (windowFits [] 0 0 0 13 = true ∧ ¬maxDurationFrom [] 0 0 0 13 = 0) ∧
      (windowFits [] 0 31 0 40 = true ∧ ¬maxDurationFrom [] 0 31 0 40 = 31) := by
  decide

/-- C4 amended: for a desired duration n with 1 ≤ n ≤ 30, if windowFits is
true then maxDurationFrom returns exactly n. -/
theorem windowFits_imp_maxDurationFrom_eq (rs : List ApiReservation)
    (s n lo hi : ℤ) (h1 : 1 ≤ n) (h30 : n ≤ 30)
    (hw : windowFits rs s n lo hi = true) :
    maxDurationFrom rs s n lo hi = n := by
  have hdef : maxDurationFrom rs s n lo hi =
      max 1 ((maxDurationGo rs s lo hi 0 (max 1 (min n 30)).toNat : ℕ) : ℤ) := rfl
  have hm : max 1 (min n 30) = n := by
    rw [min_eq_left h30, max_eq_right h1]
  by_cases hn1 : n ≤ 1
  · have hn : n = 1 := le_antisymm hn1 h1
    subst hn
    rw [hdef]
    have htn : (max 1 (min (1 : ℤ) 30)).toNat = 1 := by norm_num
    rw [htn]
    have hle := maxDurationGo_le rs s lo hi 1 0
    have : ((maxDurationGo rs s lo hi 0 1 : ℕ) : ℤ) ≤ 1 := by exact_mod_cast hle
    exact max_eq_left this
  · push_neg at hn1
    rw [windowFits, if_neg (by omega), windowFitsGo_eq_true] at hw
    rw [hdef, hm]
    rw [maxDurationGo_eq_fuel rs s lo hi n.toNat 0 fun j hj => hw j hj]
    rw [Int.toNat_of_nonneg (by omega)]
    exact max_eq_right h1

/-- C4 witness for the amended claim: n = 3 with no reservations. -/
theorem windowFits_imp_maxDurationFrom_eq_witness :
    ((1 : ℤ) ≤ 3 ∧ (3 : ℤ) ≤ 30 ∧ windowFits [] 0 3 0 13 = true) ∧
      maxDurationFrom [] 0 3 0 13 = 3 :=
  ⟨⟨by decide, by decide, by decide⟩,
    windowFits_imp_maxDurationFrom_eq [] 0 3 0 13 (by decide) (by decide) (by decide)⟩

/-- C7: hasAnyAvailableWindow is true exactly when the duration is at most
1, or some start offset in the fixed 14-day window admits a block of the
requested length that stays inside the window and hits no booked day. -/
theorem hasAnyAvailableWindow_eq_true_iff (rs : List ApiReservation) (lo d : ℤ) :
    hasAnyAvailableWindow rs lo d = true ↔
      (d ≤ 1 ∨ ∃ o : ℤ, 0 ≤ o ∧ o < 14 ∧ o + d ≤ 14 ∧
        ∀ k : ℤ, 0 ≤ k → k < d → isBookedForDate rs (lo + o + k) = false) := by
  by_cases hd : d ≤ 1
  · rw [hasAnyAvailableWindow, if_pos hd]
    simp [hd]
  · rw [hasAnyAvailableWindow, if_neg hd]
    push_neg at hd
    rw [List.any_eq_true]
    constructor
    · rintro ⟨offset, hmem, hinner⟩
      rw [List.mem_range] at hmem
      rw [hasWindowInner_eq_true] at hinner
      refine Or.inr ⟨(offset : ℤ), by omega, by omega, ?_, ?_⟩
      · have hj := (hinner (d.toNat - 1) (by omega)).1
        omega
      · intro k hk0 hkd
        have hj := (hinner k.toNat (by omega)).2
        have e : ((offset + (0 + k.toNat) : ℕ) : ℤ) = (offset : ℤ) + k := by omega
        rw [e] at hj
        rw [← add_assoc] at hj
        exact hj
    · rintro (h | ⟨o, ho0, ho14, hod, hbk⟩)
      · exact absurd h (by omega)
      · refine ⟨o.toNat, ?_, ?_⟩
        · rw [List.mem_range]
          omega
        · rw [hasWindowInner_eq_true]
          intro j hj
          refine ⟨by omega, ?_⟩
          have hk := hbk (j : ℤ) (by omega) (by omega)
          have e : ((o.toNat + (0 + j) : ℕ) : ℤ) = o + (j : ℤ) := by omega
          rw [e, ← add_assoc]
          exact hk

example : isBooked [⟨11, some 13⟩] 11 = true := by decide
example : isBooked [⟨11, some 13⟩] 12 = true := by decide
example : isBooked [⟨11, some 13⟩] 13 = false := by decide
example : isBooked [⟨14, none⟩] 14 = true := by decide
example : isBooked [⟨14, none⟩] 15 = false := by decide
example : windowFits [⟨11, 13⟩] 13 3 10 23 = true := by decide
example : maxDurationFrom [⟨11, 13⟩] 11 5 10 23 = 1 := by decide
example : maxDurationFrom [] 0 5 0 13 = 5 := by decide
example : maxDurationFrom [] 0 5 0 13 = maxDurationFromSpec [] 0 5 0 13 := by decide
example : windowFits [] 0 0 0 13 = true := by decide
example : maxDurationFrom [] 0 0 0 13 = 1 := by decide
example : windowFits [] 0 31 0 40 = true := by decide
example : maxDurationFrom [] 0 31 0 40 = 30 := by decide
example : hasAnyAvailableWindow [] 0 1 = true := by decide
example : hasAnyAvailableWindow [] 0 14 = true := by decide
example : hasAnyAvailableWindow [] 0 15 = false := by decide
example : hasAnyAvailableWindow [⟨3, 4⟩] 0 4 = true := by decide
